import Mathlib

/-!
Verification of the hardware-topology discovery subsystem
(`libgalois/src/HWTopoLinux.cpp`).

The C++ source is shallowly embedded: each function of the source file is
translated into an executable Lean definition.  OS-provided inputs (the
`/proc/cpuinfo` text, the `/proc/self/status` text, the dynamically loaded
NUMA capability, the `sched_setaffinity` syscall outcome) are passed as
explicit parameters; `static` one-time flags become explicit state
threading; fatal errors (`KATANA_SYS_DIE`, `std::vector::at` out of range)
become `Except.error`.
-/

namespace HWTopo

/-- Embeds `struct cpuinfo` (HWTopoLinux.cpp).  `unsigned` fields are
modelled as `Nat`; value-initialization (from `vals.resize`) gives all
fields zero / false, which the default values model. -/
structure cpuinfo where
  proc : Nat := 0
  physid : Nat := 0
  sib : Nat := 0
  coreid : Nat := 0
  cpucores : Nat := 0
  numaNode : Nat := 0
  valid : Bool := false
  smt : Bool := false
deriving DecidableEq, Repr

/-- Conversion of a C `int` scanned by `%d` into an `unsigned` field:
reduction modulo 2^32. -/
def u32 (n : Int) : Nat := (n % (2 ^ 32 : Int)).toNat

/-- One line of the `/proc/cpuinfo` text, as classified by the five
`sscanf` patterns of `parseCPUInfo`; `other` is any non-matching line. -/
inductive CLine where
  | processor (n : Int)
  | physicalId (n : Int)
  | siblings (n : Int)
  | coreId (n : Int)
  | cpuCores (n : Int)
  | other
deriving DecidableEq, Repr

/-- Is this a `processor : <int>` line? -/
def CLine.isProc : CLine → Bool
  | .processor _ => true
  | _ => false

/-- Is this one of the four recognized non-processor field lines? -/
def CLine.isField : CLine → Bool
  | .physicalId _ => true
  | .siblings _ => true
  | .coreId _ => true
  | .cpuCores _ => true
  | _ => false

/-- The effect of one recognized field line on the current record: the
bodies of the four non-processor `sscanf` branches of `parseCPUInfo`
(`vals.at(cur).physid = num;` and so on). -/
def applyFieldPure (r : cpuinfo) : CLine → cpuinfo
  | .physicalId n => { r with physid := u32 n }
  | .siblings n => { r with sib := u32 n }
  | .coreId n => { r with coreid := u32 n }
  | .cpuCores n => { r with cpucores := u32 n }
  | _ => r

/-- Loop state of `parseCPUInfo`: the `int cur` cursor and the
`std::vector<cpuinfo> vals` accumulator. -/
structure ParseSt where
  cur : Int
  vals : List cpuinfo
deriving DecidableEq, Repr

/-- A value-initialized `cpuinfo`, as produced by `std::vector::resize`:
all fields zero / false. -/
def blankRec : cpuinfo := ⟨0, 0, 0, 0, 0, 0, false, false⟩

/-- `std::vector::resize n`: truncate or pad with value-initialized
records. -/
def resizeTo (l : List cpuinfo) (n : Nat) : List cpuinfo :=
  l.take n ++ List.replicate (n - l.length) blankRec

/-- One iteration of the `while (std::getline(...))` loop of
`parseCPUInfo`.  A `processor` line executes `cur = num;
vals.resize(cur + 1); vals.at(cur).proc = num;` (a negative index makes
`resize`/`at` fail); a field line executes `vals.at(cur).f = num;`
(out of range when `cur` is still `-1`); other lines are skipped. -/
def parseStep (s : ParseSt) : CLine → Except String ParseSt
  | .processor n =>
    if n < 0 then .error "vector access out of range"
    else
      let m := n.toNat
      let l2 := resizeTo s.vals (m + 1)
      match l2[m]? with
      | some c => .ok ⟨n, l2.set m { c with proc := m }⟩
      | none => .error "vector access out of range"
  | .other => .ok s
  | line =>
    if s.cur < 0 then .error "vector access out of range"
    else
      match s.vals[s.cur.toNat]? with
      | some c => .ok ⟨s.cur, s.vals.set s.cur.toNat (applyFieldPure c line)⟩
      | none => .error "vector access out of range"

/-- The `while` loop of `parseCPUInfo`, folded over the classified lines. -/
def parseGo (s : ParseSt) : List CLine → Except String (List cpuinfo)
  | [] => .ok s.vals
  | line :: rest =>
    match parseStep s line with
    | .ok s2 => parseGo s2 rest
    | .error e => .error e

/-- The parsing part of `parseCPUInfo`, from the initial state
`cur = -1`, `vals` empty. -/
def parseLines (lines : List CLine) : Except String (List cpuinfo) :=
  parseGo ⟨-1, []⟩ lines

/-- The runtime NUMA capability as observed through `LoadLibNuma` and the
three `dlsym`-resolved functions: whether the library (and its symbols)
loaded, the result of `numa_available()`, of
`numa_num_configured_nodes()`, and of `numa_node_of_cpu`. -/
structure NumaEnv where
  loaded : Bool
  availRet : Int
  cfgNodes : Int
  nodeOfCpu : Nat → Int

/-- The two `static bool` flags of `getNumaNode` (NUMA build):
`warnOnce` and `numaAvail`. -/
structure NumaState where
  warnOnce : Bool
  numaAvail : Bool
deriving DecidableEq, Repr

/-- The availability test performed on the first `getNumaNode` call:
`numaAvail = dynamic_numa_available && dynamic_numa_available() >= 0`
then `numaAvail = numaAvail && dynamic_numa_num_configured_nodes() > 0`. -/
def numaCapAvail (env : NumaEnv) : Bool :=
  env.loaded && decide (0 ≤ env.availRet) && decide (0 < env.cfgNodes)

/-- Embeds `getNumaNode` for a build with NUMA support compiled in
(`KATANA_USE_NUMA`).  Returns the resolved node (or the fatal
`KATANA_SYS_DIE` as an error), the updated static state, and the number
of warnings emitted by this call. -/
def getNumaNode (env : NumaEnv) (s : NumaState) (c : cpuinfo) :
    Except String Nat × NumaState × Nat :=
  let sw :=
    if s.warnOnce then (s, 0)
    else
      let avail := numaCapAvail env
      (⟨true, avail⟩, if avail then 0 else 1)
  let s2 := sw.1
  if s2.numaAvail then
    let i := env.nodeOfCpu c.proc
    if i < 0 then (.error "failed finding numa node", s2, sw.2)
    else (.ok i.toNat, s2, sw.2)
  else (.ok c.physid, s2, sw.2)

/-- Embeds `getNumaNode` for a build without NUMA support (the `#else`
branch): always returns `c.physid`; the state is the single `warnOnce`
flag, and the third component counts warnings emitted by this call. -/
def getNumaNodeNoNuma (warned : Bool) (c : cpuinfo) : Nat × Bool × Nat :=
  (c.physid, true, if warned then 0 else 1)

/-- The `for (auto& c : vals) c.numaNode = getNumaNode(c);` loop at the
end of `parseCPUInfo` (NUMA build), threading the static state and
accumulating the warning count; a fatal `KATANA_SYS_DIE` aborts. -/
def resolveNuma (env : NumaEnv) (s : NumaState) :
    List cpuinfo → Except String (List cpuinfo) × NumaState × Nat
  | [] => (.ok [], s, 0)
  | c :: cs =>
    match getNumaNode env s c with
    | (.error e, s2, w) => (.error e, s2, w)
    | (.ok n, s2, w) =>
      match resolveNuma env s2 cs with
      | (.ok rest, s3, w2) => (.ok ({ c with numaNode := n } :: rest), s3, w + w2)
      | (.error e, s3, w2) => (.error e, s3, w + w2)

/-- The same loop for a build without NUMA support. -/
def resolveNumaNoNuma (warned : Bool) :
    List cpuinfo → List cpuinfo × Bool × Nat
  | [] => ([], warned, 0)
  | c :: cs =>
    match getNumaNodeNoNuma warned c with
    | (n, w1, w) =>
      match resolveNumaNoNuma w1 cs with
      | (rest, w2, wc) => ({ c with numaNode := n } :: rest, w2, w + wc)

/-- Embeds `parseCPUInfo` end to end (NUMA build): the parse loop
followed by per-record NUMA resolution from the fresh static state. -/
def parseCPUInfo (env : NumaEnv) (lines : List CLine) :
    Except String (List cpuinfo) :=
  match parseLines lines with
  | .error e => .error e
  | .ok vals => (resolveNuma env ⟨false, false⟩ vals).1

/-- Embeds `operator<(const cpuinfo&, const cpuinfo&)`: lexicographic on
(smt, physid, coreid, proc); for `bool`, `false < true`. -/
def cpuLt (a b : cpuinfo) : Bool :=
  if a.smt != b.smt then !a.smt && b.smt
  else if a.physid != b.physid then a.physid < b.physid
  else if a.coreid != b.coreid then a.coreid < b.coreid
  else a.proc < b.proc

/-- The non-strict order induced by `cpuLt`, used to run the sort. -/
def cpuLe (a b : cpuinfo) : Prop := cpuLt b a = false

instance : DecidableRel cpuLe := fun a b =>
  inferInstanceAs (Decidable (cpuLt b a = false))

/-- `std::sort(info.begin(), info.end())` under `operator<`.  The
comparator is a total lexicographic order whose ties require equality of
all four key fields, so any conforming `std::sort` output agrees with
this one on the key sequence. -/
def sortInfo (l : List cpuinfo) : List cpuinfo := l.insertionSort cpuLe

/-- The `for (i = 1; i < info.size(); ++i)` loop body of `markSMT`,
with `prev` the already-processed predecessor `info[i-1]`. -/
def markSMTAux (prev : cpuinfo) : List cpuinfo → List cpuinfo
  | [] => []
  | y :: ys =>
    let y2 := { y with
      smt := prev.physid == y.physid && prev.coreid == y.coreid }
    y2 :: markSMTAux y2 ys

/-- Embeds `markSMT`: each record from index 1 on gets
`smt := (predecessor shares physid and coreid)`; the record at index 0
is left untouched. -/
def markSMT : List cpuinfo → List cpuinfo
  | [] => []
  | x :: xs => x :: markSMTAux x xs

/-- Text lines are modelled as character lists (`std::string` holds a
character sequence).  Is `c` an ASCII whitespace character? -/
def isWS (c : Char) : Bool :=
  c == ' ' || c == '\t' || c == '\n' || c == '\r'

/-- Strip leading and trailing whitespace from a character list. -/
def trimChars (l : List Char) : List Char :=
  ((l.dropWhile isWS).reverse.dropWhile isWS).reverse

/-- Split a character list at every occurrence of `sep`; an empty input
yields one empty token. -/
def splitOnChar (sep : Char) (l : List Char) : List (List Char) :=
  l.foldr
    (fun c acc =>
      match acc with
      | [] => [[c]]
      | t :: ts => if c == sep then [] :: t :: ts else (c :: t) :: ts)
    [[]]

/-- Parse a nonempty all-digit token as a decimal number. -/
def digitsToNat : List Char → Option Nat
  | [] => none
  | cs =>
    if cs.all (fun c => c.isDigit) then
      some (cs.foldl (fun n c => n * 10 + (c.toNat - 48)) 0)
    else none

/-- Modelled from the spec: `katana::parseCPUList` (declared in
`katana/HWTopo.h`, not part of the supplied sources) parses a compact
range/list specification such as `0-3,7` into the list of integers it
denotes; tokens are comma-separated, each a single number or an
inclusive range `a-b`; unparsable tokens contribute nothing, so an
empty specification yields the empty list. -/
def parseCPUList (s : List Char) : List Nat :=
  (splitOnChar ',' (trimChars s)).flatMap fun tok =>
    match splitOnChar '-' (trimChars tok) with
    | [a] =>
      match digitsToNat a with
      | some n => [n]
      | none => []
    | [a, b] =>
      match digitsToNat a, digitsToNat b with
      | some x, some y => (List.range (y + 1 - x)).map (· + x)
      | _, _ => []
    | _ => []

/-- The prefix searched for by `parseCPUSet`. -/
def cpusPfx : List Char := "Cpus_allowed_list:".toList

/-- `line.compare(0, prefix.size(), prefix) == 0`: does `l` start with
`p`? -/
def startsWithChars : List Char → List Char → Bool
  | _, [] => true
  | [], _ :: _ => false
  | c :: cs, p :: ps => c == p && startsWithChars cs ps

/-- Embeds `parseCPUSet`.  The `/proc/self/status` text is passed as
`none` when the stream cannot be opened and as its list of lines
otherwise; an absent prefix line, like an unopenable stream, yields the
empty list, and a found line is parsed after stripping the prefix
(`line.substr(prefix.size())`). -/
def parseCPUSet (statusLines : Option (List (List Char))) : List Nat :=
  match statusLines with
  | none => []
  | some ls =>
    match ls.find? (fun l => startsWithChars l cpusPfx) with
    | none => []
    | some l => parseCPUList (l.drop cpusPfx.length)

/-- Embeds `markValid` given the list `v` returned by `parseCPUSet`:
an empty `v` marks every record valid, otherwise a record is valid iff
its `proc` is in `v` (`std::binary_search` over the sorted copy of `v`
is membership in `v`). -/
def markValid (v : List Nat) (info : List cpuinfo) : List cpuinfo :=
  if v.isEmpty then info.map fun c => { c with valid := true }
  else info.map fun c => { c with valid := v.contains c.proc }

/-- Embeds `countSockets`: the size of the `std::set` of `physid`s. -/
def countSockets (info : List cpuinfo) : Nat :=
  (info.map (·.physid)).dedup.length

/-- Embeds `countCores`: distinct `(physid, coreid)` pairs. -/
def countCores (info : List cpuinfo) : Nat :=
  (info.map fun c => (c.physid, c.coreid)).dedup.length

/-- Embeds `countNumaNodes`: distinct `numaNode`s. -/
def countNumaNodes (info : List cpuinfo) : Nat :=
  (info.map (·.numaNode)).dedup.length

/-- Embeds `katana::MachineTopoInfo`. -/
structure MachineTopoInfo where
  maxThreads : Nat
  maxCores : Nat
  maxSockets : Nat
  maxNumaNodes : Nat
deriving DecidableEq, Repr

/-- Embeds `katana::ThreadTopoInfo`, fields in the order of the
aggregate initializer in `makeHWTopo`: compact thread id, package
leader's compact id, compact package rank, compact NUMA rank, running
maximum package rank, OS processor id, OS NUMA node id. -/
structure ThreadTopoInfo where
  tid : Nat
  socketLeader : Nat
  socket : Nat
  numaNode : Nat
  cumulativeMaxSocket : Nat
  osContext : Nat
  osNumaNode : Nat
deriving DecidableEq, Repr

/-- Embeds `katana::HWTopoInfo`. -/
structure HWTopoInfo where
  machineTopoInfo : MachineTopoInfo
  threadTopoInfo : List ThreadTopoInfo
deriving DecidableEq, Repr

/-- The iteration order of a `std::set<unsigned>` holding the members
of `l`: ascending order of the distinct values. -/
def sortedDistinct (l : List Nat) : List Nat :=
  l.dedup.insertionSort (· ≤ ·)

/-- The record list of `makeHWTopo` just before the second `markSMT`:
sort, first SMT pass, validity marking, erasure of invalid records
(`std::partition` + `erase`, which keeps exactly the valid records),
and the second sort. -/
def filteredSorted (info0 : List cpuinfo) (v : List Nat) : List cpuinfo :=
  sortInfo ((markValid v (markSMT (sortInfo info0))).filter (·.valid))

/-- The record list of `makeHWTopo` after the second `markSMT`: the
final classification from which counts and thread records are built. -/
def finalInfo (info0 : List cpuinfo) (v : List Nat) : List cpuinfo :=
  markSMT (filteredSorted info0 v)

/-- The `for (unsigned i = 0; i < info.size(); ++i)` loop of
`makeHWTopo` building the `ThreadTopoInfo` vector: `info` is the whole
final record list (searched for the leader), `socks` and `nms` the
iteration orders of the `sockets` and `numaNodes` sets, `i` the loop
index and `mid` the running maximum package rank. -/
def buildLoop (info : List cpuinfo) (socks nms : List Nat) :
    Nat → Nat → List cpuinfo → List ThreadTopoInfo
  | _, _, [] => []
  | i, mid, c :: rest =>
    let repid := socks.indexOf c.physid
    let mid2 := max mid repid
    let leader := info.findIdx fun d => d.physid == c.physid
    { tid := i, socketLeader := leader, socket := repid,
      numaNode := nms.indexOf c.numaNode, cumulativeMaxSocket := mid2,
      osContext := c.proc, osNumaNode := c.numaNode } ::
      buildLoop info socks nms (i + 1) mid2 rest

/-- Embeds `makeHWTopo`, with the parsed records and the allowed-set
list as parameters (the outputs of `parseCPUInfo` and `parseCPUSet`). -/
def makeHWTopo (info0 : List cpuinfo) (v : List Nat) : HWTopoInfo :=
  let info := finalInfo info0 v
  let socks := sortedDistinct (info.map (·.physid))
  let nms := sortedDistinct (info.map (·.numaNode))
  { machineTopoInfo :=
      { maxSockets := countSockets info, maxThreads := info.length,
        maxCores := countCores info, maxNumaNodes := countNumaNodes info },
    threadTopoInfo := buildLoop info socks nms 0 0 info }

/-- One call to `katana::getHWTopo`: the `static std::unique_ptr` cache
is the `Option HWTopoInfo` state; an empty cache runs `makeHWTopo` and
stores the result.  The third component counts how many times the build
pipeline ran during this call. -/
def getHWTopoStep (info0 : List cpuinfo) (v : List Nat)
    (s : Option HWTopoInfo) : HWTopoInfo × Option HWTopoInfo × Nat :=
  match s with
  | none =>
    let t := makeHWTopo info0 v
    (t, some t, 1)
  | some t => (t, some t, 0)

/-- The cache contents after `n` calls to `getHWTopo` (initially empty). -/
def cacheAfter (info0 : List cpuinfo) (v : List Nat) : Nat → Option HWTopoInfo
  | 0 => none
  | n + 1 => (getHWTopoStep info0 v (cacheAfter info0 v n)).2.1

/-- The `(n+1)`-st call to `getHWTopo`: its result, the new cache, and
how many times it ran the build pipeline. -/
def nthCall (info0 : List cpuinfo) (v : List Nat) (n : Nat) :
    HWTopoInfo × Option HWTopoInfo × Nat :=
  getHWTopoStep info0 v (cacheAfter info0 v n)

/-- Embeds `katana::bindThreadSelf` for a build with
`KATANA_USE_SCHED_SETAFFINITY`: `setaffinityOk ctx` is the outcome of
the `sched_setaffinity` syscall on the single-bit mask for `ctx`, and
`errText` the `strerror(errno)` text.  Returns the boolean result and
the list of diagnostics emitted. -/
def bindThreadSelf (setaffinityOk : Nat → Bool) (errText : String)
    (osContext : Nat) : Bool × List String :=
  if setaffinityOk osContext then (true, [])
  else
    (false,
      ["Could not set CPU affinity to " ++ toString osContext ++ "(" ++
        errText ++ ")"])

/-- Embeds `katana::bindThreadSelf` for a build without affinity
support: always returns `false`; the state is the `KATANA_WARN_ONCE`
flag and the third component counts warnings emitted by this call. -/
def bindThreadSelfNoAffinity (warned : Bool) : Bool × Bool × Nat :=
  (false, true, if warned then 0 else 1)

/-- Stated from the spec, for comparison with the code: the distinct
values of `l` in order of first appearance in a left-to-right scan. -/
def firstSeen (l : List Nat) : List Nat :=
  l.foldl (fun acc x => if acc.contains x then acc else acc ++ [x]) []

/-- Stated from the spec, for comparison with the code: the rank of `x`
among the distinct values of `l` in first-seen scan order. -/
def firstSeenRank (l : List Nat) (x : Nat) : Nat := (firstSeen l).indexOf x

/-- The value carried by a `physical id` line. -/
def physVal : CLine → Option Int
  | .physicalId n => some n
  | _ => none

/-- The value carried by a `siblings` line. -/
def sibVal : CLine → Option Int
  | .siblings n => some n
  | _ => none

/-- The value carried by a `core id` line. -/
def coreVal : CLine → Option Int
  | .coreId n => some n
  | _ => none

/-- The value carried by a `cpu cores` line. -/
def ccVal : CLine → Option Int
  | .cpuCores n => some n
  | _ => none

/-- Stated from the spec, for comparison with the code: the last value
seen for one field in a left-to-right scan of a segment (converted to
`unsigned`), or the zero initial value when the field is never set. -/
def lastFieldVal (pick : CLine → Option Int) (seg : List CLine) : Nat :=
  seg.foldl (fun acc l => (pick l).elim acc u32) 0

/-- The validity predicate that `markValid v` assigns to a record with
processor id `p`. -/
def validPred (v : List Nat) (p : Nat) : Bool :=
  v.isEmpty || v.contains p

/-- Does one of the four recognized field lines occur before the first
`processor` line? -/
def fieldBeforeProc : List CLine → Bool
  | [] => false
  | (CLine.processor _) :: _ => false
  | l :: rest => l.isField || fieldBeforeProc rest

/-- The processor indices carried by the `processor` lines, in order. -/
def procIdxs : List CLine → List Int
  | [] => []
  | (CLine.processor n) :: rest => n :: procIdxs rest
  | _ :: rest => procIdxs rest

/-- The lines that set fields of the record for processor index `p`:
those between the first `processor p` line and the next `processor`
line. -/
def segAfter (p : Int) : List CLine → List CLine
  | [] => []
  | (CLine.processor n) :: rest =>
    if n = p then rest.takeWhile (fun l => !l.isProc) else segAfter p rest
  | _ :: rest => segAfter p rest

/-- The record the parser builds for processor index `p` from its
segment: start from a value-initialized record with `proc := p`, apply
each recognized field line in order (so the last value seen for a field
wins, and fields never set keep their zero initial value). -/
def recordFor (p : Int) (seg : List CLine) : cpuinfo :=
  seg.foldl applyFieldPure { blankRec with proc := p.toNat }

/-! ## Helper lemmas -/

/-- In a `<`-chain every later element is above the head. -/
theorem chain_lt_of_mem {a : Int} {l : List Int}
    (h : List.Chain (· < ·) a l) : ∀ b ∈ l, a < b := by
  have hp := List.chain_iff_pairwise.mp h
  exact (List.pairwise_cons.mp hp).1

/-- Invariant of the parse loop at state `s` with lines `rest` still to
process: the cursor is at least `-1`, the vector has exactly `cur + 1`
slots, the upcoming processor indices continue strictly increasing from
the cursor, and no field line precedes the first `processor` line while
the cursor is still `-1`. -/
def GoodSt (rest : List CLine) (s : ParseSt) : Prop :=
  -1 ≤ s.cur ∧ s.vals.length = (s.cur + 1).toNat ∧
  List.Chain (· < ·) s.cur (procIdxs rest) ∧
  (s.cur = -1 → fieldBeforeProc rest = false)

/-- Conclusion of the parse-loop specification from state `s` over
`rest`: the loop succeeds; the result has one slot per index up to the
last processor index; slots other than the cursor's are unchanged; the
cursor's record is finished by the leading non-`processor` lines; and
the slot of each upcoming processor index `p` holds `recordFor p` of
its segment. -/
def GoSpec (rest : List CLine) (s : ParseSt) : Prop :=
  ∃ vals, parseGo s rest = .ok vals ∧
    vals.length =
      ((procIdxs rest).getLast?.elim s.vals.length fun n => n.toNat + 1) ∧
    (∀ m, m < s.vals.length → (m : Int) ≠ s.cur →
      vals[m]? = s.vals[m]?) ∧
    (0 ≤ s.cur →
      vals[s.cur.toNat]? = (s.vals[s.cur.toNat]?).map
        fun r => (rest.takeWhile fun l => !l.isProc).foldl applyFieldPure r) ∧
    (∀ p ∈ procIdxs rest,
      vals[p.toNat]? = some (recordFor p (segAfter p rest)))

/-- Effect of `vals.resize(m + 1); vals.at(m) = r` when the vector had
at most `m` entries: length `m + 1`, old entries kept, slot `m` holds
`r`, intermediate slots are value-initialized, and before the `set` the
slot `m` holds a value-initialized record. -/
theorem procSlot_spec (l : List cpuinfo) (m : Nat) (r : cpuinfo)
    (h : l.length ≤ m) :
    ((resizeTo l (m + 1)).set m r).length = m + 1 ∧
    (∀ i, i < l.length → ((resizeTo l (m + 1)).set m r)[i]? = l[i]?) ∧
    ((resizeTo l (m + 1)).set m r)[m]? = some r ∧
    (∀ i, l.length ≤ i → i < m →
      ((resizeTo l (m + 1)).set m r)[i]? = some blankRec) ∧
    (resizeTo l (m + 1))[m]? = some blankRec := by
  have htake : l.take (m + 1) = l := List.take_of_length_le (by omega)
  have hres : resizeTo l (m + 1) = l ++ List.replicate (m + 1 - l.length) blankRec := by
    rw [resizeTo, htake]
  have hreslen : (resizeTo l (m + 1)).length = m + 1 := by
    rw [hres]; simp; omega
  refine ⟨by simp [hreslen], fun i hi => ?_, ?_, fun i hi1 hi2 => ?_, ?_⟩
  · rw [List.getElem?_set_ne (by omega), hres,
      List.getElem?_append_left hi]
  · rw [List.getElem?_set_self (by omega)]
  · rw [List.getElem?_set_ne (by omega), hres,
      List.getElem?_append_right hi1,
      List.getElem?_replicate_of_lt (by omega)]
  · rw [hres, List.getElem?_append_right h,
      List.getElem?_replicate_of_lt (by omega)]

/-- The `processor n` case of the parse-loop specification. -/
theorem goSpec_proc {rest : List CLine}
    (ih : ∀ s, GoodSt rest s → GoSpec rest s) (s : ParseSt) (n : Int)
    (h : GoodSt (CLine.processor n :: rest) s) :
    GoSpec (CLine.processor n :: rest) s := by
  obtain ⟨hge, hlen, hch, -⟩ := h
  rw [show procIdxs (CLine.processor n :: rest) = n :: procIdxs rest
      from rfl, List.chain_cons] at hch
  obtain ⟨hlt, hch'⟩ := hch
  have hn0 : 0 ≤ n := by omega
  have hlm : s.vals.length ≤ n.toNat := by omega
  obtain ⟨hv1len, hv1old, hv1m, -, hresm⟩ :=
    procSlot_spec s.vals n.toNat { blankRec with proc := n.toNat } hlm
  have hstep : parseStep s (CLine.processor n) =
      .ok ⟨n, (resizeTo s.vals (n.toNat + 1)).set n.toNat
        { blankRec with proc := n.toNat }⟩ := by
    simp only [parseStep]
    rw [if_neg (by omega), hresm]
  obtain ⟨vals, hok, hlen2, hold, hcur, hps⟩ :=
    ih ⟨n, (resizeTo s.vals (n.toNat + 1)).set n.toNat
      { blankRec with proc := n.toNat }⟩
      ⟨show -1 ≤ n by omega,
        show _ = (n + 1).toNat by rw [hv1len]; omega, hch',
        fun hm => absurd (show n = -1 from hm) (by omega)⟩
  have hlen2' : vals.length = (procIdxs rest).getLast?.elim
      ((resizeTo s.vals (n.toNat + 1)).set n.toNat
        { blankRec with proc := n.toNat }).length
      (fun k => k.toNat + 1) := hlen2
  have hold' : ∀ m, m < ((resizeTo s.vals (n.toNat + 1)).set n.toNat
      { blankRec with proc := n.toNat }).length → (m : Int) ≠ n →
      vals[m]? = ((resizeTo s.vals (n.toNat + 1)).set n.toNat
        { blankRec with proc := n.toNat })[m]? := hold
  have hcur' : vals[n.toNat]? =
      (((resizeTo s.vals (n.toNat + 1)).set n.toNat
        { blankRec with proc := n.toNat })[n.toNat]?).map
        (fun r => (rest.takeWhile fun l => !l.isProc).foldl
          applyFieldPure r) := hcur (show (0 : Int) ≤ n by omega)
  refine ⟨vals, ?_, ?_, ?_, ?_, ?_⟩
  · simp only [parseGo]
    rw [hstep]
    exact hok
  · show vals.length = (procIdxs (CLine.processor n :: rest)).getLast?.elim
      s.vals.length (fun k => k.toNat + 1)
    rw [show procIdxs (CLine.processor n :: rest) = n :: procIdxs rest
      from rfl]
    cases hpi : procIdxs rest with
    | nil =>
      rw [hlen2', hpi]
      simp [hv1len]
    | cons q qs =>
      rw [hlen2', hpi, List.getLast?_cons_cons]
      cases hgl : (q :: qs).getLast? with
      | none => simp at hgl
      | some x => rfl
  · intro m hm hne
    rw [hold' m (by omega) (by omega)]
    exact hv1old m hm
  · intro hc0
    rw [hold' s.cur.toNat (by omega) (by omega), hv1old _ (by omega)]
    cases s.vals[s.cur.toNat]? <;> rfl
  · intro p hp
    rw [show procIdxs (CLine.processor n :: rest) = n :: procIdxs rest
      from rfl] at hp
    rcases List.mem_cons.mp hp with hpn | hpr
    · rw [hpn]
      have hseg : segAfter n (CLine.processor n :: rest) =
          rest.takeWhile (fun l => !l.isProc) := by
        simp [segAfter]
      rw [hseg, hcur', hv1m]
      rfl
    · have hne : n ≠ p := Int.ne_of_lt (chain_lt_of_mem hch' p hpr)
      have hseg : segAfter p (CLine.processor n :: rest) =
          segAfter p rest := by
        simp [segAfter, hne]
      rw [hseg]
      exact hps p hpr

/-- The shared core of the four recognized-field-line cases of the
parse-loop specification: the step updates the cursor's record in
place. -/
theorem goSpec_upd {rest : List CLine}
    (ih : ∀ s, GoodSt rest s → GoSpec rest s) (s : ParseSt) (line : CLine)
    (c : cpuinfo)
    (hpi : procIdxs (line :: rest) = procIdxs rest)
    (htw : ((line :: rest).takeWhile fun l => !l.isProc) =
      line :: rest.takeWhile fun l => !l.isProc)
    (hseg : ∀ p, segAfter p (line :: rest) = segAfter p rest)
    (hc0 : 0 ≤ s.cur)
    (hlen : s.vals.length = (s.cur + 1).toNat)
    (hch : List.Chain (· < ·) s.cur (procIdxs (line :: rest)))
    (hc : s.vals[s.cur.toNat]? = some c)
    (hstep : parseStep s line =
      .ok ⟨s.cur, s.vals.set s.cur.toNat (applyFieldPure c line)⟩) :
    GoSpec (line :: rest) s := by
  rw [hpi] at hch
  obtain ⟨vals, hok, hlen2, hold, hcur, hps⟩ :=
    ih ⟨s.cur, s.vals.set s.cur.toNat (applyFieldPure c line)⟩
      ⟨show -1 ≤ s.cur by omega,
        show _ = (s.cur + 1).toNat by rw [List.length_set]; omega, hch,
        fun hm => absurd (show s.cur = -1 from hm) (by omega)⟩
  have hlen2' : vals.length = (procIdxs rest).getLast?.elim
      (s.vals.set s.cur.toNat (applyFieldPure c line)).length
      (fun k => k.toNat + 1) := hlen2
  have hold' : ∀ m,
      m < (s.vals.set s.cur.toNat (applyFieldPure c line)).length →
      (m : Int) ≠ s.cur →
      vals[m]? =
        (s.vals.set s.cur.toNat (applyFieldPure c line))[m]? := hold
  have hcur' : vals[s.cur.toNat]? =
      ((s.vals.set s.cur.toNat (applyFieldPure c line))[s.cur.toNat]?).map
        (fun r => (rest.takeWhile fun l => !l.isProc).foldl
          applyFieldPure r) := hcur hc0
  refine ⟨vals, ?_, ?_, ?_, ?_, ?_⟩
  · simp only [parseGo]
    rw [hstep]
    exact hok
  · show vals.length = (procIdxs (line :: rest)).getLast?.elim
      s.vals.length (fun k => k.toNat + 1)
    rw [hpi, hlen2']
    simp only [List.length_set]
  · intro m hm hne
    rw [hold' m (by rw [List.length_set]; omega) (by omega)]
    exact List.getElem?_set_ne (by omega)
  · intro hc0'
    rw [hcur', List.getElem?_set_self (by omega), htw, hc]
    simp only [Option.map_some', List.foldl_cons]
  · intro p hp
    rw [hseg p]
    rw [hpi] at hp
    exact hps p hp

/-- The four recognized-field-line cases of the parse-loop
specification: such a line forces the cursor past `-1` (else the parse
would already have failed, which the invariant excludes) and updates
the cursor's record. -/
theorem goSpec_fieldLine {rest : List CLine}
    (ih : ∀ s, GoodSt rest s → GoSpec rest s) (s : ParseSt) (line : CLine)
    (h : GoodSt (line :: rest) s)
    (hpi : procIdxs (line :: rest) = procIdxs rest)
    (htw : ((line :: rest).takeWhile fun l => !l.isProc) =
      line :: rest.takeWhile fun l => !l.isProc)
    (hseg : ∀ p, segAfter p (line :: rest) = segAfter p rest)
    (hfbp : fieldBeforeProc (line :: rest) = true)
    (hstepAny : ∀ c, s.vals[s.cur.toNat]? = some c → 0 ≤ s.cur →
      parseStep s line =
        .ok ⟨s.cur, s.vals.set s.cur.toNat (applyFieldPure c line)⟩) :
    GoSpec (line :: rest) s := by
  obtain ⟨hge, hlen, hch, hnf⟩ := h
  have hc0 : 0 ≤ s.cur := by
    by_contra hlt
    have hm1 : s.cur = -1 := by omega
    rw [hnf hm1] at hfbp
    exact Bool.false_ne_true hfbp
  have hm : s.cur.toNat < s.vals.length := by omega
  obtain ⟨c, hc⟩ : ∃ c, s.vals[s.cur.toNat]? = some c := by
    rw [List.getElem?_eq_getElem hm]
    exact ⟨_, rfl⟩
  exact goSpec_upd ih s line c hpi htw hseg hc0 hlen hch hc
    (hstepAny c hc hc0)

/-- The `other`-line case of the parse-loop specification. -/
theorem goSpec_other {rest : List CLine}
    (ih : ∀ s, GoodSt rest s → GoSpec rest s) (s : ParseSt)
    (h : GoodSt (CLine.other :: rest) s) :
    GoSpec (CLine.other :: rest) s := by
  obtain ⟨hge, hlen, hch, hnf⟩ := h
  have hnf' : s.cur = -1 → fieldBeforeProc rest = false := by
    intro hm
    have := hnf hm
    simpa [fieldBeforeProc, CLine.isField] using this
  obtain ⟨vals, hok, hlen2, hold, hcur, hps⟩ :=
    ih s ⟨hge, hlen, hch, hnf'⟩
  refine ⟨vals, ?_, hlen2, hold, ?_, fun p hp => hps p hp⟩
  · simp only [parseGo, parseStep]
    exact hok
  · intro hc0
    rw [hcur hc0]
    have htw : ((CLine.other :: rest).takeWhile fun l => !l.isProc) =
        CLine.other :: rest.takeWhile fun l => !l.isProc := rfl
    rw [htw]
    cases s.vals[s.cur.toNat]? <;> rfl

/-- The parse loop satisfies its specification from every invariant
state. -/
theorem parseGo_spec (rest : List CLine) :
    ∀ s, GoodSt rest s → GoSpec rest s := by
  induction rest with
  | nil =>
    intro s h
    refine ⟨s.vals, rfl, rfl, fun m _ _ => rfl, fun hc => ?_, fun p hp => ?_⟩
    · cases s.vals[s.cur.toNat]? <;> rfl
    · simp [procIdxs] at hp
  | cons l rest ih =>
    intro s h
    cases l with
    | processor n => exact goSpec_proc ih s n h
    | other => exact goSpec_other ih s h
    | physicalId k =>
      exact goSpec_fieldLine ih s (CLine.physicalId k) h rfl rfl
        (fun p => rfl) (by simp [fieldBeforeProc, CLine.isField])
        (fun c hc hc0 => by
          simp only [parseStep]
          rw [if_neg (by omega), hc])
    | siblings k =>
      exact goSpec_fieldLine ih s (CLine.siblings k) h rfl rfl
        (fun p => rfl) (by simp [fieldBeforeProc, CLine.isField])
        (fun c hc hc0 => by
          simp only [parseStep]
          rw [if_neg (by omega), hc])
    | coreId k =>
      exact goSpec_fieldLine ih s (CLine.coreId k) h rfl rfl
        (fun p => rfl) (by simp [fieldBeforeProc, CLine.isField])
        (fun c hc hc0 => by
          simp only [parseStep]
          rw [if_neg (by omega), hc])
    | cpuCores k =>
      exact goSpec_fieldLine ih s (CLine.cpuCores k) h rfl rfl
        (fun p => rfl) (by simp [fieldBeforeProc, CLine.isField])
        (fun c hc hc0 => by
          simp only [parseStep]
          rw [if_neg (by omega), hc])

/-- While `cur` is still `-1`, a recognized field line before any
`processor` line makes the parse loop fail (the `vals.at(cur)` access
is out of range). -/
theorem parseGo_err (lines : List CLine) :
    ∀ s : ParseSt, s.cur = -1 → fieldBeforeProc lines = true →
      ∃ e, parseGo s lines = .error e := by
  induction lines with
  | nil => exact fun s hc hf => absurd hf (by simp [fieldBeforeProc])
  | cons l rest ih =>
    intro s hc hf
    cases l with
    | processor n => exact absurd hf (by simp [fieldBeforeProc])
    | other =>
      simp only [fieldBeforeProc, CLine.isField, Bool.false_or] at hf
      have : parseGo s (CLine.other :: rest) = parseGo s rest := by
        simp [parseGo, parseStep]
      rw [this]
      exact ih s hc hf
    | physicalId n =>
      exact ⟨"vector access out of range", by simp [parseGo, parseStep, hc]⟩
    | siblings n =>
      exact ⟨"vector access out of range", by simp [parseGo, parseStep, hc]⟩
    | coreId n =>
      exact ⟨"vector access out of range", by simp [parseGo, parseStep, hc]⟩
    | cpuCores n =>
      exact ⟨"vector access out of range", by simp [parseGo, parseStep, hc]⟩

/-- `resolveNuma` after the one-time check found NUMA unavailable:
every record falls back to its package id and no further warning is
emitted. -/
theorem resolveNuma_warned (env : NumaEnv) :
    ∀ cs : List cpuinfo,
      resolveNuma env ⟨true, false⟩ cs =
        (.ok (cs.map fun d => { d with numaNode := d.physid }),
          ⟨true, false⟩, 0) := by
  intro cs
  induction cs with
  | nil => rfl
  | cons c cs ih => simp [resolveNuma, getNumaNode, ih]

/-- `resolveNumaNoNuma` after the one-time warning: package-id fallback,
no further warning. -/
theorem resolveNumaNoNuma_warned :
    ∀ cs : List cpuinfo,
      resolveNumaNoNuma true cs =
        (cs.map fun d => { d with numaNode := d.physid }, true, 0) := by
  intro cs
  induction cs with
  | nil => rfl
  | cons c cs ih => simp [resolveNumaNoNuma, getNumaNodeNoNuma, ih]

/-- `markSMTAux` only rewrites `smt` flags: any projection that ignores
the `smt` field is unchanged. -/
theorem markSMTAux_map {β : Type} (f : cpuinfo → β)
    (hf : ∀ c b, f { c with smt := b } = f c) :
    ∀ (prev : cpuinfo) (xs : List cpuinfo),
      (markSMTAux prev xs).map f = xs.map f := by
  intro prev xs
  induction xs generalizing prev with
  | nil => rfl
  | cons y ys ih => simp [markSMTAux, hf, ih]

/-- `markSMT` only rewrites `smt` flags. -/
theorem markSMT_map {β : Type} (f : cpuinfo → β)
    (hf : ∀ c b, f { c with smt := b } = f c) :
    ∀ l : List cpuinfo, (markSMT l).map f = l.map f
  | [] => rfl
  | x :: xs => by simp [markSMT, markSMTAux_map f hf]

/-- Filtering by an `smt`-blind predicate and projecting by an
`smt`-blind function commutes with `markSMTAux`. -/
theorem markSMTAux_filter_map {β : Type} (f : cpuinfo → β)
    (p : cpuinfo → Bool) (hf : ∀ c b, f { c with smt := b } = f c)
    (hp : ∀ c b, p { c with smt := b } = p c) :
    ∀ (prev : cpuinfo) (xs : List cpuinfo),
      ((markSMTAux prev xs).filter p).map f = (xs.filter p).map f := by
  intro prev xs
  induction xs generalizing prev with
  | nil => rfl
  | cons y ys ih =>
    simp only [markSMTAux, List.filter_cons, hp]
    cases hpy : p y <;> simp [hpy, ih, hf]

/-- Filtering by an `smt`-blind predicate and projecting by an
`smt`-blind function commutes with `markSMT`. -/
theorem markSMT_filter_map {β : Type} (f : cpuinfo → β)
    (p : cpuinfo → Bool) (hf : ∀ c b, f { c with smt := b } = f c)
    (hp : ∀ c b, p { c with smt := b } = p c) :
    ∀ l : List cpuinfo, ((markSMT l).filter p).map f = (l.filter p).map f
  | [] => rfl
  | x :: xs => by
    simp only [markSMT, List.filter_cons]
    cases hpx : p x <;>
      simp [hpx, markSMTAux_filter_map f p hf hp, markSMTAux_map f hf]

/-- `markValid v` sets every record's `valid` flag to `validPred v` of
its processor id. -/
theorem markValid_eq (v : List Nat) (l : List cpuinfo) :
    markValid v l = l.map fun c => { c with valid := validPred v c.proc } := by
  unfold markValid
  cases hv : v.isEmpty with
  | true =>
    rw [if_pos rfl]
    exact List.map_congr_left fun c _ => by simp [validPred, hv]
  | false =>
    rw [if_neg (by simp)]
    exact List.map_congr_left fun c _ => by simp [validPred, hv]

/-- Keeping the records `markValid` marked valid is filtering by the
validity predicate, as seen through any `valid`-blind projection. -/
theorem markValid_filter_map {β : Type} (f : cpuinfo → β)
    (hf : ∀ c b, f { c with valid := b } = f c) (v : List Nat)
    (l : List cpuinfo) :
    ((markValid v l).filter (·.valid)).map f =
      (l.filter fun c => validPred v c.proc).map f := by
  rw [markValid_eq, List.filter_map, List.map_map]
  simp only [Function.comp_def]
  exact List.map_congr_left fun c _ => hf c _

/-- The final record list of `makeHWTopo`, viewed through any
projection blind to the recomputed `smt` and `valid` flags, is a
permutation of the input records that pass the validity predicate. -/
theorem finalInfo_map_perm {β : Type} (f : cpuinfo → β)
    (hfs : ∀ c b, f { c with smt := b } = f c)
    (hfv : ∀ c b, f { c with valid := b } = f c)
    (info0 : List cpuinfo) (v : List Nat) :
    ((finalInfo info0 v).map f).Perm
      ((info0.filter fun c => validPred v c.proc).map f) := by
  unfold finalInfo filteredSorted
  rw [markSMT_map f hfs]
  refine ((List.perm_insertionSort cpuLe _).map f).trans ?_
  rw [markValid_filter_map f hfv,
    markSMT_filter_map f (fun c => validPred v c.proc) hfs
      (fun c b => rfl)]
  exact ((List.perm_insertionSort cpuLe info0).filter
    (fun c => validPred v c.proc)).map f

/-- The thread-record loop produces one record per input record. -/
theorem buildLoop_length (info : List cpuinfo) (socks nms : List Nat) :
    ∀ (rest : List cpuinfo) (i0 mid0 : Nat),
      (buildLoop info socks nms i0 mid0 rest).length = rest.length
  | [], _, _ => rfl
  | c :: cs, i0, mid0 => by
    simp [buildLoop, buildLoop_length info socks nms cs]

/-- The `k`-th thread record built by the loop: its compact id is the
loop index, its leader the first position in `info` sharing its package
id, its ranks the positions of its ids in the `sockets` and `numaNodes`
set orders, and it carries the record's OS ids. -/
theorem buildLoop_get (info : List cpuinfo) (socks nms : List Nat) :
    ∀ (rest : List cpuinfo) (i0 mid0 k : Nat) (r : cpuinfo),
      rest[k]? = some r →
      ∃ e, (buildLoop info socks nms i0 mid0 rest)[k]? = some e ∧
        e.tid = i0 + k ∧
        e.socketLeader = info.findIdx (fun d => d.physid == r.physid) ∧
        e.socket = socks.indexOf r.physid ∧
        e.numaNode = nms.indexOf r.numaNode ∧
        e.osContext = r.proc ∧ e.osNumaNode = r.numaNode := by
  intro rest
  induction rest with
  | nil => intro i0 mid0 k r hr; simp at hr
  | cons c cs ih =>
    intro i0 mid0 k r hr
    cases k with
    | zero =>
      rw [List.getElem?_cons_zero] at hr
      obtain rfl : c = r := by injection hr
      exact ⟨⟨i0, info.findIdx (fun d : cpuinfo => d.physid == c.physid),
        socks.indexOf c.physid, nms.indexOf c.numaNode,
        max mid0 (socks.indexOf c.physid), c.proc, c.numaNode⟩,
        by simp [buildLoop], rfl, rfl, rfl, rfl, rfl, rfl⟩
    | succ k2 =>
      rw [List.getElem?_cons_succ] at hr
      obtain ⟨e, he, h1, h2, h3, h4, h5, h6⟩ :=
        ih (i0 + 1) (max mid0 (socks.indexOf c.physid)) k2 r hr
      refine ⟨e, ?_, by omega, h2, h3, h4, h5, h6⟩
      rw [show buildLoop info socks nms i0 mid0 (c :: cs) =
        _ :: buildLoop info socks nms (i0 + 1)
          (max mid0 (socks.indexOf c.physid)) cs from rfl,
        List.getElem?_cons_succ]
      exact he

/-- If position `k` satisfies the predicate, the first satisfying
position is at most `k`. -/
theorem findIdx_le_of_get {α : Type} (p : α → Bool) :
    ∀ (l : List α) (k : Nat) (hk : k < l.length),
      p (l.get ⟨k, hk⟩) = true → l.findIdx p ≤ k := by
  intro l
  induction l with
  | nil => intro k hk _; simp at hk
  | cons a l ih =>
    intro k hk hp
    cases hpa : p a with
    | true => simp [List.findIdx_cons, hpa]
    | false =>
      cases k with
      | zero =>
        rw [show (a :: l).get ⟨0, hk⟩ = a from rfl, hpa] at hp
        exact absurd hp (by simp)
      | succ k2 =>
        simp only [List.findIdx_cons, hpa, cond_false]
        exact Nat.succ_le_succ (ih k2 _ hp)

/-- The `k`-th thread record of `makeHWTopo` in terms of the `k`-th
final record: compact id `k`, ranks by position in the sorted distinct
id lists, OS ids copied. -/
theorem tti_get (info0 : List cpuinfo) (v : List Nat) (k : Nat)
    (r : cpuinfo) (hr : (finalInfo info0 v)[k]? = some r) :
    ∃ e, (makeHWTopo info0 v).threadTopoInfo[k]? = some e ∧
      e.tid = k ∧
      e.socket =
        (sortedDistinct ((finalInfo info0 v).map (·.physid))).indexOf
          r.physid ∧
      e.numaNode =
        (sortedDistinct ((finalInfo info0 v).map (·.numaNode))).indexOf
          r.numaNode ∧
      e.osContext = r.proc ∧ e.osNumaNode = r.numaNode := by
  have hL : (makeHWTopo info0 v).threadTopoInfo =
      buildLoop (finalInfo info0 v)
        (sortedDistinct ((finalInfo info0 v).map (·.physid)))
        (sortedDistinct ((finalInfo info0 v).map (·.numaNode))) 0 0
        (finalInfo info0 v) := rfl
  obtain ⟨e, he, h1, h2, h3, h4, h5, h6⟩ :=
    buildLoop_get (finalInfo info0 v) _ _ (finalInfo info0 v) 0 0 k r hr
  exact ⟨e, by rw [hL]; exact he, by omega, h3, h4, h5, h6⟩

/-- The ascending distinct-id list used for ranks: sorted, free of
duplicates, with the same members as the projected ids, and as long as
the distinct-id count. -/
theorem sortedDistinct_spec (l : List Nat) :
    List.Sorted (· ≤ ·) (sortedDistinct l) ∧ (sortedDistinct l).Nodup ∧
    (∀ x, x ∈ sortedDistinct l ↔ x ∈ l) ∧
    (sortedDistinct l).length = l.dedup.length := by
  have hperm : List.Perm (sortedDistinct l) l.dedup :=
    List.perm_insertionSort (· ≤ ·) l.dedup
  exact ⟨List.sorted_insertionSort (· ≤ ·) l.dedup,
    hperm.nodup_iff.mpr (List.nodup_dedup l),
    fun x => (hperm.mem_iff).trans (List.mem_dedup),
    hperm.length_eq⟩

/-- Records counted by a predicate and by its negation partition the
list. -/
theorem countP_split (p : cpuinfo → Bool) :
    ∀ l : List cpuinfo, l.countP p + l.countP (fun c => !p c) = l.length := by
  intro l
  induction l with
  | nil => rfl
  | cons c cs ih =>
    cases hc : p c <;> simp [List.countP_cons, hc] <;> omega

/-- After the `markSMT` pass, each record is flagged SMT exactly when
it shares package and core ids with its predecessor in the output. -/
theorem markSMTAux_chain (xs : List cpuinfo) :
    ∀ prev : cpuinfo,
      List.Chain
        (fun a b => b.smt = (a.physid == b.physid && a.coreid == b.coreid))
        prev (markSMTAux prev xs) := by
  induction xs with
  | nil => exact fun prev => List.Chain.nil
  | cons y ys ih => exact fun prev => List.Chain.cons rfl (ih _)

/-- `markSMT` output satisfies the adjacent-pair SMT characterization
at every position after the first. -/
theorem markSMT_chain' (l : List cpuinfo) :
    List.Chain'
      (fun a b => b.smt = (a.physid == b.physid && a.coreid == b.coreid))
      (markSMT l) := by
  cases l with
  | nil => simp [markSMT]
  | cons x xs => exact markSMTAux_chain xs x

/-- `markSMT` leaves the first record untouched. -/
theorem markSMT_head : ∀ l : List cpuinfo, (markSMT l).head? = l.head?
  | [] => rfl
  | _ :: _ => rfl

/-- Replaying a segment onto a record updates each of the four fields
to the last value the segment sets for it and touches nothing else. -/
theorem foldl_apply_proj (seg : List CLine) :
    ∀ r : cpuinfo,
      (seg.foldl applyFieldPure r).proc = r.proc ∧
      (seg.foldl applyFieldPure r).physid =
        seg.foldl (fun acc l => (physVal l).elim acc u32) r.physid ∧
      (seg.foldl applyFieldPure r).sib =
        seg.foldl (fun acc l => (sibVal l).elim acc u32) r.sib ∧
      (seg.foldl applyFieldPure r).coreid =
        seg.foldl (fun acc l => (coreVal l).elim acc u32) r.coreid ∧
      (seg.foldl applyFieldPure r).cpucores =
        seg.foldl (fun acc l => (ccVal l).elim acc u32) r.cpucores ∧
      (seg.foldl applyFieldPure r).numaNode = r.numaNode ∧
      (seg.foldl applyFieldPure r).valid = r.valid ∧
      (seg.foldl applyFieldPure r).smt = r.smt := by
  induction seg with
  | nil => exact fun r => ⟨rfl, rfl, rfl, rfl, rfl, rfl, rfl, rfl⟩
  | cons l seg ih =>
    intro r
    have h := ih (applyFieldPure r l)
    cases l <;>
      simpa [applyFieldPure, physVal, sibVal, coreVal, ccVal] using h

/-- The record replayed for processor index `p` holds `p` as its
processor id and, in each of the four parsed fields, the last value its
segment set (zero when never set). -/
theorem recordFor_fields (p : Int) (seg : List CLine) :
    (recordFor p seg).proc = p.toNat ∧
    (recordFor p seg).physid = lastFieldVal physVal seg ∧
    (recordFor p seg).sib = lastFieldVal sibVal seg ∧
    (recordFor p seg).coreid = lastFieldVal coreVal seg ∧
    (recordFor p seg).cpucores = lastFieldVal ccVal seg := by
  have h := foldl_apply_proj seg { blankRec with proc := p.toNat }
  exact ⟨h.1, h.2.1, h.2.2.1, h.2.2.2.1, h.2.2.2.2.1⟩

/-! ## Claims -/

/-- C3 as stated fails: a single `processor : 5` line is one distinct
`processor` line, yet the parsed sequence has six records
(`vals.resize(cur + 1)` sizes the vector by index, not by count). -/
theorem parseCPUInfo_len_cex :
    (parseLines [CLine.processor 5]).toOption.map List.length = some 6 ∧
    (procIdxs [CLine.processor 5]).dedup.length = 1 ∧
    (6 : Nat) ≠ 1 := by
  decide

/-- C3 amended: when the processor indices are nonnegative and strictly
increasing (which the code's own `KATANA_LOG_DEBUG_ASSERT(cur < num)`
asserts, starting from `cur = -1`) and a `processor` line precedes
every recognized field line, parsing succeeds, the record count is one
plus the last processor index (zero if there is none) — which equals
the number of `processor` lines exactly when the indices are consecutive
from 0 — and the record at each processor index holds that index as its
processor id and, in the physical-id, siblings, core-id and cpu-cores
fields, the last value seen for it between that `processor` line and
the next one (zero when never set). -/
theorem parseCPUInfo_spec (lines : List CLine)
    (hch : List.Chain (· < ·) (-1) (procIdxs lines))
    (hnf : fieldBeforeProc lines = false) :
    ∃ vals, parseLines lines = .ok vals ∧
      vals.length =
        ((procIdxs lines).getLast?.elim 0 fun n => n.toNat + 1) ∧
      ∀ p ∈ procIdxs lines, ∃ r, vals[p.toNat]? = some r ∧
        r.proc = p.toNat ∧
        r.physid = lastFieldVal physVal (segAfter p lines) ∧
        r.sib = lastFieldVal sibVal (segAfter p lines) ∧
        r.coreid = lastFieldVal coreVal (segAfter p lines) ∧
        r.cpucores = lastFieldVal ccVal (segAfter p lines) := by
  obtain ⟨vals, hok, hlen, -, -, hps⟩ :=
    parseGo_spec lines ⟨-1, []⟩ ⟨le_refl _, rfl, hch, fun _ => hnf⟩
  refine ⟨vals, hok, hlen, fun p hp => ?_⟩
  obtain ⟨h1, h2, h3, h4, h5⟩ := recordFor_fields p (segAfter p lines)
  exact ⟨recordFor p (segAfter p lines), hps p hp, h1, h2, h3, h4, h5⟩

/-- Witness for C3 amended: two processors where the `physical id` of
processor 0 is written twice (last value 4 wins) and processor 1 sets
only `siblings`. -/
theorem parseCPUInfo_spec_witness :
    ∃ vals,
      parseLines [CLine.processor 0, CLine.physicalId 3, CLine.coreId 2,
        CLine.physicalId 4, CLine.processor 1, CLine.siblings 8] =
        .ok vals ∧
      vals.length = 2 := by
  obtain ⟨vals, hok, hlen, -⟩ :=
    parseCPUInfo_spec [CLine.processor 0, CLine.physicalId 3,
      CLine.coreId 2, CLine.physicalId 4, CLine.processor 1,
      CLine.siblings 8]
      (List.Chain.cons (by decide)
        (List.Chain.cons (by decide) List.Chain.nil))
      (by decide)
  exact ⟨vals, hok, hlen.trans (by decide)⟩

/-- C1 as stated fails: with two valid processors, package ids 0 and 1,
NUMA ids 7 and 2, the final scan order sees NUMA id 7 first, so
first-seen scan ranking gives the entries NUMA ranks [0, 1]; the code
ranks by position in the numerically ordered `std::set` and gives
[1, 0]. -/
theorem ranks_scan_cex :
    ((makeHWTopo [⟨0, 0, 0, 0, 0, 7, false, false⟩,
        ⟨1, 1, 0, 0, 0, 2, false, false⟩] []).threadTopoInfo.map
      (·.numaNode)) = [1, 0] ∧
    ((finalInfo [⟨0, 0, 0, 0, 0, 7, false, false⟩,
        ⟨1, 1, 0, 0, 0, 2, false, false⟩] []).map fun c =>
        firstSeenRank
          ((finalInfo [⟨0, 0, 0, 0, 0, 7, false, false⟩,
            ⟨1, 1, 0, 0, 0, 2, false, false⟩] []).map (·.numaNode))
          c.numaNode) = [0, 1] ∧
    ([1, 0] : List Nat) ≠ [0, 1] := by
  decide

/-- C1 amended: package and NUMA ranks are each a bijection from the
distinct package (resp. NUMA) ids of the final records onto
`0..count-1`, assigned in increasing numeric order of the OS ids (the
iteration order of the `std::set`), not first-seen scan order: each
entry's rank is the position of its record's id in the ascending
duplicate-free id list, that list has the same members as the final
records' ids and length `maxSockets` (resp. `maxNumaNodes`), and the
assigned ranks cover exactly `0..count-1`. -/
theorem ranks_spec (info0 : List cpuinfo) (v : List Nat) :
    (∀ (k : Nat) (r : cpuinfo), (finalInfo info0 v)[k]? = some r →
      ∃ e, (makeHWTopo info0 v).threadTopoInfo[k]? = some e ∧
        e.socket =
          (sortedDistinct ((finalInfo info0 v).map (·.physid))).indexOf
            r.physid ∧
        e.numaNode =
          (sortedDistinct ((finalInfo info0 v).map (·.numaNode))).indexOf
            r.numaNode) ∧
    (List.Sorted (· ≤ ·)
        (sortedDistinct ((finalInfo info0 v).map (·.physid))) ∧
      (sortedDistinct ((finalInfo info0 v).map (·.physid))).Nodup ∧
      (∀ x, x ∈ sortedDistinct ((finalInfo info0 v).map (·.physid)) ↔
        x ∈ (finalInfo info0 v).map (·.physid)) ∧
      (sortedDistinct ((finalInfo info0 v).map (·.physid))).length =
        (makeHWTopo info0 v).machineTopoInfo.maxSockets) ∧
    (List.Sorted (· ≤ ·)
        (sortedDistinct ((finalInfo info0 v).map (·.numaNode))) ∧
      (sortedDistinct ((finalInfo info0 v).map (·.numaNode))).Nodup ∧
      (∀ x, x ∈ sortedDistinct ((finalInfo info0 v).map (·.numaNode)) ↔
        x ∈ (finalInfo info0 v).map (·.numaNode)) ∧
      (sortedDistinct ((finalInfo info0 v).map (·.numaNode))).length =
        (makeHWTopo info0 v).machineTopoInfo.maxNumaNodes) ∧
    ((makeHWTopo info0 v).threadTopoInfo.map (·.socket)).toFinset =
      Finset.range (makeHWTopo info0 v).machineTopoInfo.maxSockets ∧
    ((makeHWTopo info0 v).threadTopoInfo.map (·.numaNode)).toFinset =
      Finset.range (makeHWTopo info0 v).machineTopoInfo.maxNumaNodes := by
  obtain ⟨hs1, hs2, hs3, hs4⟩ :=
    sortedDistinct_spec ((finalInfo info0 v).map (·.physid))
  obtain ⟨hn1, hn2, hn3, hn4⟩ :=
    sortedDistinct_spec ((finalInfo info0 v).map (·.numaNode))
  have hms : (sortedDistinct ((finalInfo info0 v).map (·.physid))).length =
      (makeHWTopo info0 v).machineTopoInfo.maxSockets := hs4.trans rfl
  have hmn : (sortedDistinct ((finalInfo info0 v).map (·.numaNode))).length =
      (makeHWTopo info0 v).machineTopoInfo.maxNumaNodes := hn4.trans rfl
  have hlenTTI : (makeHWTopo info0 v).threadTopoInfo.length =
      (finalInfo info0 v).length := by
    show (buildLoop (finalInfo info0 v)
      (sortedDistinct ((finalInfo info0 v).map (·.physid)))
      (sortedDistinct ((finalInfo info0 v).map (·.numaNode))) 0 0
      (finalInfo info0 v)).length = _
    exact buildLoop_length _ _ _ _ 0 0
  refine ⟨fun k r hr => ?_, ⟨hs1, hs2, hs3, hms⟩,
    ⟨hn1, hn2, hn3, hmn⟩, ?_, ?_⟩
  · obtain ⟨e, he, _, h3, h4, _, _⟩ := tti_get info0 v k r hr
    exact ⟨e, he, h3, h4⟩
  · ext x
    simp only [List.mem_toFinset, Finset.mem_range, List.mem_map]
    constructor
    · rintro ⟨e, he, rfl⟩
      obtain ⟨k, hk⟩ := List.getElem?_of_mem he
      have hklt : k < (finalInfo info0 v).length := by
        have := (List.getElem?_eq_some.mp hk).1
        omega
      have hfi : (finalInfo info0 v)[k]? =
          some ((finalInfo info0 v).get ⟨k, hklt⟩) :=
        List.getElem?_eq_getElem hklt
      obtain ⟨e2, he2, _, h3, _, _, _⟩ := tti_get info0 v k _ hfi
      obtain rfl : e2 = e := by
        rw [hk] at he2
        injection he2 with hv
        exact hv.symm
      rw [h3, ← hms]
      exact List.indexOf_lt_length.mpr ((hs3 _).mpr
        (List.mem_map.mpr ⟨_, List.getElem_mem _, rfl⟩))
    · intro hx
      have hxl : x < (sortedDistinct
          ((finalInfo info0 v).map (·.physid))).length := by omega
      have hmem : (sortedDistinct
          ((finalInfo info0 v).map (·.physid)))[x] ∈
          (finalInfo info0 v).map (·.physid) :=
        (hs3 _).mp (List.getElem_mem hxl)
      obtain ⟨r, hrmem, hrph⟩ := List.mem_map.mp hmem
      obtain ⟨k, hk⟩ := List.getElem?_of_mem hrmem
      obtain ⟨e, he, _, h3, _, _, _⟩ := tti_get info0 v k r hk
      refine ⟨e, List.getElem?_mem he, ?_⟩
      rw [h3, hrph]
      exact List.indexOf_getElem hs2 x hxl
  · ext x
    simp only [List.mem_toFinset, Finset.mem_range, List.mem_map]
    constructor
    · rintro ⟨e, he, rfl⟩
      obtain ⟨k, hk⟩ := List.getElem?_of_mem he
      have hklt : k < (finalInfo info0 v).length := by
        have := (List.getElem?_eq_some.mp hk).1
        omega
      have hfi : (finalInfo info0 v)[k]? =
          some ((finalInfo info0 v).get ⟨k, hklt⟩) :=
        List.getElem?_eq_getElem hklt
      obtain ⟨e2, he2, _, _, h4, _, _⟩ := tti_get info0 v k _ hfi
      obtain rfl : e2 = e := by
        rw [hk] at he2
        injection he2 with hv
        exact hv.symm
      rw [h4, ← hmn]
      exact List.indexOf_lt_length.mpr ((hn3 _).mpr
        (List.mem_map.mpr ⟨_, List.getElem_mem _, rfl⟩))
    · intro hx
      have hxl : x < (sortedDistinct
          ((finalInfo info0 v).map (·.numaNode))).length := by omega
      have hmem : (sortedDistinct
          ((finalInfo info0 v).map (·.numaNode)))[x] ∈
          (finalInfo info0 v).map (·.numaNode) :=
        (hn3 _).mp (List.getElem_mem hxl)
      obtain ⟨r, hrmem, hrph⟩ := List.mem_map.mp hmem
      obtain ⟨k, hk⟩ := List.getElem?_of_mem hrmem
      obtain ⟨e, he, _, _, h4, _, _⟩ := tti_get info0 v k r hk
      refine ⟨e, List.getElem?_mem he, ?_⟩
      rw [h4, hrph]
      exact List.indexOf_getElem hn2 x hxl

/-- Witness for C1 amended on a two-processor machine: the first
conjunct instantiated at entry 0. -/
theorem ranks_spec_witness :
    ∃ e, (makeHWTopo [⟨0, 0, 0, 0, 0, 7, false, false⟩,
        ⟨1, 1, 0, 0, 0, 2, false, false⟩] []).threadTopoInfo[0]? =
      some e ∧
      e.socket = (sortedDistinct ((finalInfo
        [⟨0, 0, 0, 0, 0, 7, false, false⟩,
          ⟨1, 1, 0, 0, 0, 2, false, false⟩] []).map (·.physid))).indexOf
        (⟨0, 0, 0, 0, 0, 7, true, false⟩ : cpuinfo).physid ∧
      e.numaNode = (sortedDistinct ((finalInfo
        [⟨0, 0, 0, 0, 0, 7, false, false⟩,
          ⟨1, 1, 0, 0, 0, 2, false, false⟩] []).map
        (·.numaNode))).indexOf
        (⟨0, 0, 0, 0, 0, 7, true, false⟩ : cpuinfo).numaNode :=
  (ranks_spec [⟨0, 0, 0, 0, 0, 7, false, false⟩,
      ⟨1, 1, 0, 0, 0, 2, false, false⟩] []).1 0
    ⟨0, 0, 0, 0, 0, 7, true, false⟩ (by decide)

/-- C2 as stated fails: processors 0 and 1 share package 0 and core 0,
so the first pass marks processor 1 SMT; restricting the allowed set to
{1} excludes processor 0, leaving processor 1 an SMT sibling only of an
excluded record — yet the final classification still marks it SMT,
because `markSMT` never rewrites the flag of the record at position 0
of the re-sorted survivors. -/
theorem smt_refilter_cex :
    (markSMT (sortInfo [⟨0, 0, 0, 0, 0, 0, false, false⟩,
        ⟨1, 0, 0, 0, 0, 0, false, false⟩])).map
      (fun c => (c.proc, c.smt)) = [(0, false), (1, true)] ∧
    (finalInfo [⟨0, 0, 0, 0, 0, 0, false, false⟩,
        ⟨1, 0, 0, 0, 0, 0, false, false⟩] [1]).map
      (fun c => (c.proc, c.smt)) = [(1, true)] := by
  decide

/-- C2 amended: removing the invalid records reduces `maxThreads` by
exactly the number of excluded records, and SMT flags are recomputed on
the surviving records in their re-sorted order at every position after
the first — so a surviving record at a nonzero position whose
(package id, core id) pair no other survivor shares (in particular one
that was an SMT sibling only of now-excluded records) is classified
non-SMT — while the record at position 0 keeps the flag it carried into
the re-sort. -/
theorem smt_refilter_spec (info0 : List cpuinfo) (v : List Nat) :
    ((makeHWTopo info0 v).machineTopoInfo.maxThreads +
      info0.countP (fun c => !validPred v c.proc) = info0.length) ∧
    (∀ (i : Nat) (h : i + 1 < (finalInfo info0 v).length),
      ((finalInfo info0 v).get ⟨i + 1, h⟩).smt =
        ((((finalInfo info0 v).get ⟨i, Nat.lt_of_succ_lt h⟩).physid ==
          ((finalInfo info0 v).get ⟨i + 1, h⟩).physid) &&
         (((finalInfo info0 v).get ⟨i, Nat.lt_of_succ_lt h⟩).coreid ==
          ((finalInfo info0 v).get ⟨i + 1, h⟩).coreid))) ∧
    (∀ (i : Nat) (h : i + 1 < (finalInfo info0 v).length),
      (∀ (j : Nat) (hj : j < (finalInfo info0 v).length), j ≠ i + 1 →
        ¬(((finalInfo info0 v).get ⟨j, hj⟩).physid =
            ((finalInfo info0 v).get ⟨i + 1, h⟩).physid ∧
          ((finalInfo info0 v).get ⟨j, hj⟩).coreid =
            ((finalInfo info0 v).get ⟨i + 1, h⟩).coreid)) →
      ((finalInfo info0 v).get ⟨i + 1, h⟩).smt = false) ∧
    (finalInfo info0 v).head? = (filteredSorted info0 v).head? := by
  have hchain := markSMT_chain' (filteredSorted info0 v)
  have hget := List.chain'_iff_get.mp hchain
  have hlen : (markSMT (filteredSorted info0 v)).length =
      (finalInfo info0 v).length := rfl
  have hb : ∀ (i : Nat) (h : i + 1 < (finalInfo info0 v).length),
      ((finalInfo info0 v).get ⟨i + 1, h⟩).smt =
        ((((finalInfo info0 v).get ⟨i, Nat.lt_of_succ_lt h⟩).physid ==
          ((finalInfo info0 v).get ⟨i + 1, h⟩).physid) &&
         (((finalInfo info0 v).get ⟨i, Nat.lt_of_succ_lt h⟩).coreid ==
          ((finalInfo info0 v).get ⟨i + 1, h⟩).coreid)) := by
    intro i h
    exact hget i (by omega)
  refine ⟨?_, hb, fun i h hno => ?_, markSMT_head _⟩
  · have h1 : (makeHWTopo info0 v).machineTopoInfo.maxThreads =
        (info0.filter fun c => validPred v c.proc).length := by
      show (finalInfo info0 v).length = _
      have h2 := (finalInfo_map_perm (·.proc) (fun c b => rfl)
        (fun c b => rfl) info0 v).length_eq
      simpa using h2
    rw [h1, ← List.countP_eq_length_filter]
    exact countP_split _ info0
  · rw [hb i h]
    rcases not_and_or.mp (hno i (Nat.lt_of_succ_lt h) (by omega)) with
      h1 | h1
    · have hb1 : (((finalInfo info0 v).get
          ⟨i, Nat.lt_of_succ_lt h⟩).physid ==
          ((finalInfo info0 v).get ⟨i + 1, h⟩).physid) = false :=
        beq_eq_false_iff_ne.mpr h1
      rw [hb1, Bool.false_and]
    · have hb1 : (((finalInfo info0 v).get
          ⟨i, Nat.lt_of_succ_lt h⟩).coreid ==
          ((finalInfo info0 v).get ⟨i + 1, h⟩).coreid) = false :=
        beq_eq_false_iff_ne.mpr h1
      rw [hb1, Bool.and_false]

/-- Witness for C2 amended: two valid processors on distinct packages;
the entry at position 1 is classified by comparison with its
predecessor. -/
theorem smt_refilter_spec_witness :
    ((finalInfo [⟨0, 0, 0, 0, 0, 0, false, false⟩,
        ⟨1, 1, 0, 1, 0, 0, false, false⟩] []).get
      ⟨0 + 1, by decide⟩).smt =
      ((((finalInfo [⟨0, 0, 0, 0, 0, 0, false, false⟩,
          ⟨1, 1, 0, 1, 0, 0, false, false⟩] []).get
          ⟨0, Nat.lt_of_succ_lt (by decide)⟩).physid ==
        ((finalInfo [⟨0, 0, 0, 0, 0, 0, false, false⟩,
          ⟨1, 1, 0, 1, 0, 0, false, false⟩] []).get
          ⟨0 + 1, by decide⟩).physid) &&
       (((finalInfo [⟨0, 0, 0, 0, 0, 0, false, false⟩,
          ⟨1, 1, 0, 1, 0, 0, false, false⟩] []).get
          ⟨0, Nat.lt_of_succ_lt (by decide)⟩).coreid ==
        ((finalInfo [⟨0, 0, 0, 0, 0, 0, false, false⟩,
          ⟨1, 1, 0, 1, 0, 0, false, false⟩] []).get
          ⟨0 + 1, by decide⟩).coreid)) :=
  (smt_refilter_spec [⟨0, 0, 0, 0, 0, 0, false, false⟩,
      ⟨1, 1, 0, 1, 0, 0, false, false⟩] []).2.1 0 (by decide)

/-- C4: after filtering, the four `MachineTopoInfo` counts equal, over
the records passing the validity predicate only: `maxSockets` the
number of distinct physical-package ids, `maxCores` the number of
distinct (package id, core id) pairs, `maxNumaNodes` the number of
distinct NUMA node ids, and `maxThreads` the total number of valid
records. -/
theorem machineCounts_spec (info0 : List cpuinfo) (v : List Nat) :
    (makeHWTopo info0 v).machineTopoInfo.maxSockets =
      (((info0.filter fun c => validPred v c.proc).map
        (·.physid)).dedup).length ∧
    (makeHWTopo info0 v).machineTopoInfo.maxCores =
      (((info0.filter fun c => validPred v c.proc).map
        fun c => (c.physid, c.coreid)).dedup).length ∧
    (makeHWTopo info0 v).machineTopoInfo.maxNumaNodes =
      (((info0.filter fun c => validPred v c.proc).map
        (·.numaNode)).dedup).length ∧
    (makeHWTopo info0 v).machineTopoInfo.maxThreads =
      (info0.filter fun c => validPred v c.proc).length := by
  refine ⟨?_, ?_, ?_, ?_⟩
  · show countSockets (finalInfo info0 v) = _
    exact (finalInfo_map_perm (·.physid) (fun c b => rfl) (fun c b => rfl)
      info0 v).dedup.length_eq
  · show countCores (finalInfo info0 v) = _
    exact (finalInfo_map_perm (fun c => (c.physid, c.coreid))
      (fun c b => rfl) (fun c b => rfl) info0 v).dedup.length_eq
  · show countNumaNodes (finalInfo info0 v) = _
    exact (finalInfo_map_perm (·.numaNode) (fun c b => rfl)
      (fun c b => rfl) info0 v).dedup.length_eq
  · show (finalInfo info0 v).length = _
    have h := (finalInfo_map_perm (·.proc) (fun c b => rfl)
      (fun c b => rfl) info0 v).length_eq
    simpa using h

/-- C5: every entry of the built `ThreadTopoInfo` sequence has its own
position as compact thread id and, as leader, the position of the first
record in final sorted order sharing its package id; consequently the
leader id is at most the entry's own compact id, the leader entry's own
leader field equals its own compact id, and entry and leader have equal
package ranks. -/
theorem leader_spec (info0 : List cpuinfo) (v : List Nat) (k : Nat)
    (h : k < (makeHWTopo info0 v).threadTopoInfo.length) :
    ∃ e r, (makeHWTopo info0 v).threadTopoInfo[k]? = some e ∧
      (finalInfo info0 v)[k]? = some r ∧
      e.tid = k ∧
      e.socketLeader =
        (finalInfo info0 v).findIdx (fun d => d.physid == r.physid) ∧
      e.socketLeader ≤ k ∧
      ∃ le, (makeHWTopo info0 v).threadTopoInfo[e.socketLeader]? = some le ∧
        le.tid = e.socketLeader ∧ le.socketLeader = e.socketLeader ∧
        le.socket = e.socket := by
  have hL : (makeHWTopo info0 v).threadTopoInfo =
      buildLoop (finalInfo info0 v)
        (sortedDistinct ((finalInfo info0 v).map (·.physid)))
        (sortedDistinct ((finalInfo info0 v).map (·.numaNode))) 0 0
        (finalInfo info0 v) := rfl
  rw [hL, buildLoop_length] at h
  have hr : (finalInfo info0 v)[k]? =
      some ((finalInfo info0 v).get ⟨k, h⟩) := List.getElem?_eq_getElem h
  obtain ⟨e, he, h1, h2, h3, h4, h5, h6⟩ :=
    buildLoop_get (finalInfo info0 v) _ _ (finalInfo info0 v) 0 0 k
      ((finalInfo info0 v).get ⟨k, h⟩) hr
  have hple : (finalInfo info0 v).findIdx
      (fun d => d.physid == ((finalInfo info0 v).get ⟨k, h⟩).physid) ≤ k :=
    findIdx_le_of_get _ (finalInfo info0 v) k h (by simp)
  have hjlt := Nat.lt_of_le_of_lt hple h
  have hrj : (finalInfo info0 v)[(finalInfo info0 v).findIdx
      (fun d => d.physid == ((finalInfo info0 v).get ⟨k, h⟩).physid)]? =
      some ((finalInfo info0 v).get ⟨_, hjlt⟩) :=
    List.getElem?_eq_getElem hjlt
  have hpj := List.findIdx_getElem (w := hjlt)
  have hphys : ((finalInfo info0 v).get ⟨_, hjlt⟩).physid =
      ((finalInfo info0 v).get ⟨k, h⟩).physid := by
    simpa using hpj
  obtain ⟨le, hle, g1, g2, g3, g4, g5, g6⟩ :=
    buildLoop_get (finalInfo info0 v) _ _ (finalInfo info0 v) 0 0 _
      ((finalInfo info0 v).get ⟨_, hjlt⟩) hrj
  refine ⟨e, (finalInfo info0 v).get ⟨k, h⟩, by rw [hL]; exact he, hr,
    by omega, h2, by omega, le, ?_, by omega, ?_, ?_⟩
  · rw [hL, h2]
    exact hle
  · rw [g2, h2, hphys]
  · rw [g3, h3, hphys]

/-- Witness for C5 on a one-processor machine: the single entry is its
own leader. -/
theorem leader_spec_witness :
    ∃ e r, (makeHWTopo [blankRec] []).threadTopoInfo[0]? = some e ∧
      (finalInfo [blankRec] [])[0]? = some r ∧
      e.tid = 0 ∧
      e.socketLeader =
        (finalInfo [blankRec] []).findIdx (fun d => d.physid == r.physid) ∧
      e.socketLeader ≤ 0 ∧
      ∃ le,
        (makeHWTopo [blankRec] []).threadTopoInfo[e.socketLeader]? =
          some le ∧
        le.tid = e.socketLeader ∧ le.socketLeader = e.socketLeader ∧
        le.socket = e.socket :=
  leader_spec [blankRec] [] 0 (by decide)

/-- C6 as stated fails: a status text containing the prefix line with an
empty list specification is in the "otherwise" branch (the line is
present), yet `markValid` marks the record with processor id 0 valid
although 0 is not a member of the (empty) parsed set. -/
theorem markValid_cex :
    (List.find? (fun l => startsWithChars l cpusPfx)
        ["Cpus_allowed_list:".toList]).isSome = true ∧
    (markValid (parseCPUSet (some ["Cpus_allowed_list:".toList]))
        [blankRec]).map (·.valid) = [true] ∧
    (parseCPUSet (some ["Cpus_allowed_list:".toList])).contains
        blankRec.proc = false := by
  decide

/-- C6 amended: an unopenable status source or an absent prefix line
parses to the empty list, and `markValid` with an empty list marks every
record valid; when the parsed integer set is nonempty, each record is
marked valid iff its processor id is a member (an empty parse from a
present line is treated like an absent line: every record is valid). -/
theorem markValid_spec (st : Option (List (List Char)))
    (info : List cpuinfo) :
    (st = none → parseCPUSet st = []) ∧
    (∀ ls, st = some ls →
      ls.find? (fun l => startsWithChars l cpusPfx) = none →
      parseCPUSet st = []) ∧
    (parseCPUSet st = [] →
      (markValid (parseCPUSet st) info).map (·.valid) =
        info.map fun _ => true) ∧
    (parseCPUSet st ≠ [] →
      (markValid (parseCPUSet st) info).map (·.valid) =
        info.map fun c => (parseCPUSet st).contains c.proc) := by
  refine ⟨fun h => h ▸ rfl, fun ls hs hf => ?_, fun he => ?_,
    fun hne => ?_⟩
  · rw [hs]; simp only [parseCPUSet, hf]
  · rw [he]; simp [markValid, Function.comp_def]
  · cases hp : parseCPUSet st with
    | nil => exact absurd hp hne
    | cons a as => simp [markValid, hp]

/-- C10: for an input whose first recognized field line (physical id,
siblings, core id, or cpu cores) appears before any `processor` line,
the `vals.at(cur)` access with `cur = -1` is out of range: the parse
fails with an out-of-range error instead of skipping the line, and so
does `parseCPUInfo` as a whole, for every NUMA environment. -/
theorem parseCPUInfo_field_before_proc (lines : List CLine)
    (env : NumaEnv) (h : fieldBeforeProc lines = true) :
    (∃ e, parseLines lines = .error e) ∧
    ∃ e, parseCPUInfo env lines = .error e := by
  obtain ⟨e, he⟩ := parseGo_err lines ⟨-1, []⟩ rfl h
  have hl : parseLines lines = .error e := he
  exact ⟨⟨e, hl⟩, ⟨e, by simp [parseCPUInfo, hl]⟩⟩

/-- Witness for C10: a lone `physical id : 0` line fails to parse. -/
theorem parseCPUInfo_field_before_proc_witness :
    fieldBeforeProc [CLine.physicalId 0] = true ∧
    ∃ e,
      parseCPUInfo ⟨false, 0, 0, fun _ => 0⟩ [CLine.physicalId 0] =
        .error e :=
  ⟨by decide,
    (parseCPUInfo_field_before_proc [CLine.physicalId 0]
        ⟨false, 0, 0, fun _ => 0⟩ (by decide)).2⟩

/-- Witness for C6 amended: an unopenable source, a text without the
prefix line, and a present `0-1` list, each on a one-record machine. -/
theorem markValid_spec_witness :
    parseCPUSet (none : Option (List (List Char))) = [] ∧
    (markValid (parseCPUSet (some [['x']])) [blankRec]).map (·.valid) =
      [blankRec].map (fun _ => true) ∧
    (markValid (parseCPUSet (some ["Cpus_allowed_list:0-1".toList]))
        [blankRec]).map (·.valid) =
      [blankRec].map fun c =>
        (parseCPUSet (some ["Cpus_allowed_list:0-1".toList])).contains
          c.proc :=
  ⟨(markValid_spec none []).1 rfl,
    (markValid_spec (some [['x']]) [blankRec]).2.2.1 (by decide),
    (markValid_spec (some ["Cpus_allowed_list:0-1".toList])
        [blankRec]).2.2.2 (by decide)⟩

/-- C7: whenever the NUMA capability is unavailable (library or symbols
absent, `numa_available() < 0`, or zero configured nodes) — and likewise
on builds compiled without NUMA support — resolving NUMA nodes maps
every record to its physical-package id and emits at most one warning;
and when the capability is available, a negative `numa_node_of_cpu`
result is fatal. -/
theorem getNumaNode_fallback (env : NumaEnv) (cs : List cpuinfo)
    (c : cpuinfo) :
    (numaCapAvail env = false →
      (resolveNuma env ⟨false, false⟩ cs).1 =
        .ok (cs.map fun d => { d with numaNode := d.physid }) ∧
      (resolveNuma env ⟨false, false⟩ cs).2.2 ≤ 1) ∧
    (numaCapAvail env = true → env.nodeOfCpu c.proc < 0 →
      (getNumaNode env ⟨false, false⟩ c).1 =
        .error "failed finding numa node") ∧
    ((resolveNumaNoNuma false cs).1 =
        cs.map (fun d => { d with numaNode := d.physid }) ∧
      (resolveNumaNoNuma false cs).2.2 ≤ 1) := by
  refine ⟨fun hun => ?_, fun hav hneg => ?_, ?_⟩
  · cases cs with
    | nil => exact ⟨rfl, Nat.zero_le 1⟩
    | cons d ds =>
      simp [resolveNuma, getNumaNode, hun, resolveNuma_warned]
  · simp [getNumaNode, hav, hneg]
  · cases cs with
    | nil => exact ⟨rfl, Nat.zero_le 1⟩
    | cons d ds =>
      simp [resolveNumaNoNuma, getNumaNodeNoNuma, resolveNumaNoNuma_warned]

/-- Witness for C7 at concrete inputs: an unavailable capability
(library not loaded) falls back to package ids with at most one
warning, and an available capability with a negative node query is
fatal. -/
theorem getNumaNode_fallback_witness :
    ((resolveNuma ⟨false, 0, 0, fun _ => 0⟩ ⟨false, false⟩ [blankRec]).1 =
        .ok ([blankRec].map fun d => { d with numaNode := d.physid }) ∧
      (resolveNuma ⟨false, 0, 0, fun _ => 0⟩ ⟨false, false⟩
          [blankRec]).2.2 ≤ 1) ∧
    (getNumaNode ⟨true, 0, 1, fun _ => -1⟩ ⟨false, false⟩ blankRec).1 =
      .error "failed finding numa node" :=
  ⟨(getNumaNode_fallback ⟨false, 0, 0, fun _ => 0⟩ [blankRec] blankRec).1
      rfl,
    (getNumaNode_fallback ⟨true, 0, 1, fun _ => -1⟩ [blankRec]
        blankRec).2.1 rfl (by decide)⟩

/-- C8: `bindThreadSelf` is a total boolean-returning operation: on a
supported build it returns exactly the syscall outcome and, on failure,
emits one diagnostic containing the OS error text; on a build without
affinity support it returns false and warns only once. -/
theorem bindThreadSelf_ok (env : Nat → Bool) (err : String) (ctx : Nat) :
    ((bindThreadSelf env err ctx).1 = env ctx) ∧
    (env ctx = false →
      ∃ p q, (bindThreadSelf env err ctx).2 = [p ++ err ++ q]) ∧
    (∀ w, (bindThreadSelfNoAffinity w).1 = false) ∧
    (bindThreadSelfNoAffinity false).2.2 = 1 ∧
    (bindThreadSelfNoAffinity false).2.1 = true ∧
    (bindThreadSelfNoAffinity true).2.2 = 0 := by
  refine ⟨?_, fun hf => ?_, fun w => rfl, rfl, rfl, rfl⟩
  · unfold bindThreadSelf
    cases h : env ctx <;> simp [h]
  · refine ⟨"Could not set CPU affinity to " ++ toString ctx ++ "(",
      ")", ?_⟩
    simp [bindThreadSelf, hf]

/-- Witness for C8: a failing syscall at context 3 yields a diagnostic
embedding the error text. -/
theorem bindThreadSelf_ok_witness :
    ∃ p q,
      (bindThreadSelf (fun _ => false) "EPERM" 3).2 = [p ++ "EPERM" ++ q] :=
  (bindThreadSelf_ok (fun _ => false) "EPERM" 3).2.1 rfl

/-- Helper: after the first call the cache holds the built topology. -/
theorem cacheAfter_pos (info0 : List cpuinfo) (v : List Nat) :
    ∀ n, 0 < n → cacheAfter info0 v n = some (makeHWTopo info0 v) := by
  intro n hn
  induction n with
  | zero => omega
  | succ k ih =>
    cases k with
    | zero => rfl
    | succ j =>
      have h := ih (Nat.succ_pos j)
      show (getHWTopoStep info0 v (cacheAfter info0 v (j + 1))).2.1 = _
      rw [h]; rfl

/-- C9: every call to `getHWTopo` after the first returns a result
structurally identical to the first call's result, and runs the build
pipeline zero times. -/
theorem getHWTopo_cached (info0 : List cpuinfo) (v : List Nat) (n : Nat) :
    (nthCall info0 v n).1 = (nthCall info0 v 0).1 ∧
    (0 < n → (nthCall info0 v n).2.2 = 0) := by
  constructor
  · cases n with
    | zero => rfl
    | succ k =>
      show (getHWTopoStep info0 v (cacheAfter info0 v (k + 1))).1 = _
      rw [cacheAfter_pos info0 v (k + 1) (Nat.succ_pos k)]
      rfl
  · intro hn
    cases n with
    | zero => omega
    | succ k =>
      show (getHWTopoStep info0 v (cacheAfter info0 v (k + 1))).2.2 = 0
      rw [cacheAfter_pos info0 v (k + 1) (Nat.succ_pos k)]; rfl

/-- Witness for C9: the second call on a one-record machine returns the
first call's result and does not rebuild. -/
theorem getHWTopo_cached_witness :
    (nthCall [blankRec] [] 1).1 = (nthCall [blankRec] [] 0).1 ∧
    (nthCall [blankRec] [] 1).2.2 = 0 :=
  ⟨(getHWTopo_cached [blankRec] [] 1).1,
    (getHWTopo_cached [blankRec] [] 1).2 (by decide)⟩

end HWTopo
